import Mathlib

/-!
Verification of the matching-and-ranking core of `two_percent`
(a fuzzy-finder core): item pool, match-engine combinators, rank model,
and the cancellable matching pass.

The Rust sources are embedded shallowly:
  * `src/item.rs`    → `RankBuilder`, `MatchedItem`, `ItemPool`
  * `src/engine/andor.rs` → `OrEngine`, `AndEngine`
  * `src/matcher.rs` → `Matcher.run` (sequentialised; the cancellation
    flag is modelled as the sequence of values read at each check point)
Machine integers (`i32`, `usize`) are modelled as `Int`/`Nat`; the values
involved never overflow in the modelled scenarios.
-/

/-- An item: one unit of searchable text.  The Rust trait `SkimItem` is
reduced to the one capability the core needs, `text()`, modelled as the
list of characters of the text. -/
structure Item where
  text : List Char
deriving DecidableEq, Repr

/-- A rank: the Rust `Rank = [i32; 4]`, modelled as a list of integers
(of length 4 for every rank the code builds). -/
abbrev Rank := List Int

/-- The Rust `MatchRange`: either a contiguous byte span or an explicit
set of character indices. -/
inductive MatchRange where
  | ByteRange (start stop : Nat)
  | Chars (indices : List Nat)
deriving DecidableEq, Repr

/-- The Rust `MatchResult`: one engine evaluation result. -/
structure MatchResult where
  rank : Rank
  matched_range : MatchRange
deriving DecidableEq, Repr

/-- Number of characters of `text` that fit in the first `b` bytes of its
UTF-8 encoding (for `b` on a character boundary this is exactly
`text[..b].chars().count()`). -/
def charsUpTo (text : List Char) (b : Nat) : Nat :=
  match text with
  | [] => 0
  | c :: rest => if 0 < b ∧ c.utf8Size ≤ b then 1 + charsUpTo rest (b - c.utf8Size) else 0

/-- Modelled from the spec: `MatchResult::range_char_indices` lives in the
crate root (`lib.rs`), which is not among the provided sources; the spec
says the two range representations are interchangeable via a
byte-range→char-index conversion that requires the original text, so a
byte range is converted to the list of character indices it covers, and a
character-index set is returned as is. -/
def MatchResult.range_char_indices (r : MatchResult) (text : List Char) : List Nat :=
  match r.matched_range with
  | .ByteRange s e =>
      let first := charsUpTo text s
      let last := charsUpTo text e
      List.range' first (last - first)
  | .Chars indices => indices

/-- Insertion of a value into a sorted list (helper for `sortNat`). -/
def insertSorted (x : Nat) : List Nat → List Nat
  | [] => [x]
  | y :: l => if x ≤ y then x :: y :: l else y :: insertSorted x l

/-- Ascending sort of a list of naturals; models Rust `Vec::sort` on
`Vec<usize>` (insertion sort here, same resulting list). -/
def sortNat : List Nat → List Nat
  | [] => []
  | x :: l => insertSorted x (sortNat l)

/-- Removal of consecutive duplicate elements; models Rust `Vec::dedup`
(which removes only consecutive repeats, keeping one of each run). -/
def dedupConsec {α : Type} [DecidableEq α] : List α → List α
  | [] => []
  | [a] => [a]
  | a :: b :: l => if a = b then dedupConsec (b :: l) else a :: dedupConsec (b :: l)

/-- An engine is its one capability: `match_item(item) -> Option<MatchResult>`
(trait object `dyn MatchEngine` reduced to a function). -/
abbrev MatchEngine := Item → Option MatchResult

/-- The Rust `OrEngine::match_item`:
`self.engines.iter().find_map(|engine| engine.match_item(item))`. -/
def OrEngine.match_item (engines : List MatchEngine) (item : Item) : Option MatchResult :=
  engines.findSome? (fun engine => engine item)

/-- The result-collection loop of `AndEngine::match_item`: evaluates the
engines left to right, stopping at the first `None` (the `?` operator). -/
def collectResults : List MatchEngine → Item → Option (List MatchResult)
  | [], _ => some []
  | engine :: rest, item =>
    match engine item with
    | none => none
    | some r => (collectResults rest item).map (fun rs => r :: rs)

/-- The Rust `AndEngine::merge_matched_items`: rank of the first result;
ranges normalised to character indices, concatenated, sorted, deduped. -/
def mergeMatchedItems (results : List MatchResult) (text : List Char) : MatchResult :=
  let rank := (results.head?.map (fun r => r.rank)).getD [0, 0, 0, 0]
  let ranges := results.flatMap (fun r =>
    match r.matched_range with
    | .ByteRange .. => r.range_char_indices text
    | .Chars indices => indices)
  { rank := rank, matched_range := .Chars (dedupConsec (sortNat ranges)) }

/-- The Rust `AndEngine::match_item`: every sub-engine must match, the
results are merged; an empty result list yields `None`. -/
def AndEngine.match_item (engines : List MatchEngine) (item : Item) : Option MatchResult :=
  match collectResults engines item with
  | none => none
  | some [] => none
  | some results => some (mergeMatchedItems results item.text)

/-- The Rust `RankCriteria` enum (src/item.rs). -/
inductive RankCriteria where
  | Score
  | Begin
  | End
  | NegScore
  | NegBegin
  | NegEnd
  | Length
  | NegLength
deriving DecidableEq, Repr

/-- The Rust `RankBuilder::new`: if neither `Score` nor `NegScore` is
contained, insert `Score` at position 0; then `Vec::dedup` (consecutive
duplicates only).  The builder is represented by its criterion list. -/
def RankBuilder.new (criterion : List RankCriteria) : List RankCriteria :=
  let criterion :=
    if ¬ RankCriteria.Score ∈ criterion ∧ ¬ RankCriteria.NegScore ∈ criterion then
      RankCriteria.Score :: criterion
    else criterion
  dedupConsec criterion

/-- Value placed into a rank slot for one criterion
(the `match` inside `RankBuilder::build_rank`). -/
def criteriaValue (score b e len : Int) : RankCriteria → Int
  | .Score => -score
  | .Begin => b
  | .End => e
  | .NegScore => score
  | .NegBegin => -b
  | .NegEnd => -e
  | .Length => len
  | .NegLength => -len

/-- The Rust `RankBuilder::build_rank`: start from `[0,0,0,0]`, write the
value of each of the first 4 criteria into its slot. -/
def RankBuilder.build_rank (criterion : List RankCriteria)
    (score b e len : Int) : Rank :=
  ((criterion.take 4).map (criteriaValue score b e len)) ++
    List.replicate (4 - (criterion.take 4).length) 0

/-- The Rust `MatchedItem` (src/item.rs).  The `Weak<T>` item reference is
modelled by the item itself. -/
structure MatchedItem where
  item : Item
  rank : Rank
  matched_range : Option MatchRange
  item_idx : Nat
deriving DecidableEq, Repr

/-- The Rust `PartialEq for MatchedItem`: equality by `rank` alone. -/
def MatchedItem.eq (a b : MatchedItem) : Bool :=
  a.rank == b.rank

/-- Comparison of two `i32`, as Rust `Ord for i32`. -/
def intCmp (a b : Int) : Ordering :=
  if a < b then .lt else if b < a then .gt else .eq

/-- Lexicographic comparison of rank vectors, as Rust `Ord for [i32; 4]`. -/
def rankCmp : List Int → List Int → Ordering
  | [], [] => .eq
  | [], _ :: _ => .lt
  | _ :: _, [] => .gt
  | a :: xs, b :: ys =>
    match intCmp a b with
    | .eq => rankCmp xs ys
    | o => o

/-- The Rust `Ord for MatchedItem`: comparison by `rank` alone. -/
def MatchedItem.cmp (a b : MatchedItem) : Ordering :=
  rankCmp a.rank b.rank

/-- The Rust `ItemPool` (src/item.rs), its atomics and locked vectors
flattened into one record observed under the lock. -/
structure ItemPool where
  length : Nat
  pool : List Item
  taken : Nat
  reserved_items : List Item
  lines_to_reserve : Nat
deriving DecidableEq, Repr

/-- The Rust `ItemPool::new`. -/
def ItemPool.new : ItemPool :=
  { length := 0, pool := [], taken := 0, reserved_items := [], lines_to_reserve := 0 }

/-- The Rust builder method `ItemPool::lines_to_reserve` (renamed to avoid
clashing with the field of the same name). -/
def ItemPool.setLinesToReserve (p : ItemPool) (n : Nat) : ItemPool :=
  { p with lines_to_reserve := n }

/-- The Rust `ItemPool::len`. -/
def ItemPool.len (p : ItemPool) : Nat := p.length

/-- The Rust `ItemPool::append`: computes the remaining header quota; when
it is positive, the first `min(quota, items.len())` new items are pushed
onto the pool and (as weak references) onto the reserved header, and the
rest of `items` is not stored anywhere (the `else` branch alone appends
the whole vector); `length` is then set to the pool length, which is also
returned. -/
def ItemPool.append (p : ItemPool) (items : List Item) : ItemPool × Nat :=
  let to_reserve := p.lines_to_reserve - p.reserved_items.length
  if to_reserve > 0 then
    let t := min to_reserve items.length
    let reservedPool := items.take t
    let pool := p.pool ++ reservedPool
    let header := p.reserved_items ++ reservedPool
    ({ p with pool := pool, reserved_items := header, length := pool.length }, pool.length)
  else
    let pool := p.pool ++ items
    ({ p with pool := pool, length := pool.length }, pool.length)

/-- The Rust `ItemPool::take`: swaps `taken` to the pool length and
returns the view of the pool from the old watermark on. -/
def ItemPool.take (p : ItemPool) : ItemPool × List Item :=
  ({ p with taken := p.pool.length }, p.pool.drop p.taken)

/-- The Rust `ItemPool::reserved`: the header view. -/
def ItemPool.reserved (p : ItemPool) : List Item := p.reserved_items

/-- The Rust `ItemPool::reset`: rewinds `taken` to 0 and nothing else. -/
def ItemPool.reset (p : ItemPool) : ItemPool := { p with taken := 0 }

/-- The Rust `ItemPool::clear`: clears both vectors and both counters. -/
def ItemPool.clear (p : ItemPool) : ItemPool :=
  { p with pool := [], reserved_items := [], taken := 0, length := 0 }

/-- States reachable from a fresh pool by the pool's operations. -/
inductive ItemPool.Reachable : ItemPool → Prop where
  | new : ItemPool.Reachable ItemPool.new
  | set (p : ItemPool) (n : Nat) : ItemPool.Reachable p →
      ItemPool.Reachable (p.setLinesToReserve n)
  | append (p : ItemPool) (items : List Item) : ItemPool.Reachable p →
      ItemPool.Reachable (p.append items).1
  | take (p : ItemPool) : ItemPool.Reachable p → ItemPool.Reachable p.take.1
  | reset (p : ItemPool) : ItemPool.Reachable p → ItemPool.Reachable p.reset
  | clear (p : ItemPool) : ItemPool.Reachable p → ItemPool.Reachable p.clear

/-- The `UNMATCHED_RANK` constant of src/matcher.rs. -/
def UNMATCHED_RANK : Rank := [0, 0, 0, 0]

/-- Outcome of one matching pass: the published result buffer and the two
progress counters. -/
structure PassOutcome where
  buffer : List MatchedItem
  processed : Nat
  matched : Nat
deriving DecidableEq, Repr

/-- A cancellation-flag schedule: `flag t` is the value the pass reads at
its `t`-th load of the `stopped` atomic.  Load 0 is the pre-publish gate
(`if !stopped ...` around the buffer update); load `i + 1` is the
`take_while` check made before visiting item `i`. -/
def FlagSchedule := Nat → Bool

/-- Number of items the `take_while` stage lets through: the longest
prefix of the snapshot whose per-item flag loads all read `false`. -/
def visitedCount (flag : FlagSchedule) (n : Nat) : Nat :=
  ((List.range n).takeWhile (fun i => ! flag (i + 1))).length

/-- One element of the pass pipeline (the `filter_map`/`map` stages of
src/matcher.rs): the engine is consulted first (the per-pass cache is
never written, so every item reaches the engine); a `None` drops the
item; on `Some`, the disabled fast path produces a zero-rank result
without touching the `matched` counter, the normal path carries the
engine's rank and range. -/
def passStep (engine : MatchEngine) (matcherDisabled : Bool) (numTaken : Nat)
    (index : Nat) (item : Item) : Option MatchedItem :=
  match engine item with
  | none => none
  | some res =>
    if matcherDisabled then
      some { item := item, rank := UNMATCHED_RANK, matched_range := none,
             item_idx := numTaken + index }
    else
      some { item := item, rank := res.rank, matched_range := some res.matched_range,
             item_idx := numTaken + index }

/-- Results produced for a visited prefix of the snapshot. -/
def passResults (engine : MatchEngine) (matcherDisabled : Bool) (numTaken : Nat)
    (visited : List Item) : List MatchedItem :=
  visited.enum.filterMap (fun p => passStep engine matcherDisabled numTaken p.1 p.2)

/-- The coordinator task body of `Matcher::run` (src/matcher.rs),
sequentialised against a flag schedule: `matcher_disabled` is
`disabled || query.is_empty()`; if the publish gate reads `true` the lazy
iterator is never driven, so the buffer keeps the `previous_results` seed
and both counters stay 0; otherwise the buffer is cleared and refilled
with the results of the items visited before cancellation, `processed`
counts the visited items and `matched` counts engine hits outside the
disabled mode. -/
def Matcher.run (engine : MatchEngine) (disabled : Bool) (query : String)
    (numTaken : Nat) (items : List Item) (previousResults : List MatchedItem)
    (flag : FlagSchedule) : PassOutcome :=
  let matcherDisabled := disabled || query.isEmpty
  if flag 0 then
    { buffer := previousResults, processed := 0, matched := 0 }
  else
    let k := visitedCount flag items.length
    let visited := items.take k
    { buffer := passResults engine matcherDisabled numTaken visited,
      processed := k,
      matched :=
        if matcherDisabled then 0
        else visited.countP (fun item => (engine item).isSome) }

/-- Concrete items used by the closed evaluation theorems. -/
def itemA : Item := { text := ['a'] }

/-- A second concrete item. -/
def itemB : Item := { text := ['b'] }

/-- A third concrete item. -/
def itemC : Item := { text := ['c'] }

/-- A fourth concrete item. -/
def itemD : Item := { text := ['d'] }

/-- A concrete engine that matches exactly the items whose text is "a". -/
def engineOnlyA : MatchEngine := fun item =>
  if item.text = ['a'] then
    some { rank := [-1, 0, 0, 0], matched_range := .Chars [0] }
  else none

/-- A flag schedule that is never set (the pass is never cancelled). -/
def flagNever : FlagSchedule := fun _ => false

/-- A flag schedule set right after the publish gate passes: load 0 reads
`false`, every later load reads `true` (a `kill()` that lands between the
gate and the first item visit). -/
def flagAfterGate : FlagSchedule := fun t => decide (1 ≤ t)

/-- A two-character item used by the combinator witnesses. -/
def itemXY : Item := { text := ['x', 'y'] }

/-- A concrete engine returning a byte-range match on every item. -/
def engineByte : MatchEngine := fun _ =>
  some { rank := [-2, 0, 0, 0], matched_range := .ByteRange 0 1 }

/-- A concrete engine returning a character-index match on every item. -/
def engineChars : MatchEngine := fun _ =>
  some { rank := [-3, 0, 0, 0], matched_range := .Chars [1, 0] }

/-- A concrete engine that matches nothing. -/
def engineNone : MatchEngine := fun _ => none

/-- A concrete non-empty previous-results seed for the cancellation
counterexample. -/
def seedResults : List MatchedItem :=
  [{ item := itemB, rank := [5, 0, 0, 0], matched_range := none, item_idx := 7 }]

/-- Membership is preserved by consecutive-duplicate removal. -/
theorem mem_dedupConsec {α : Type} [DecidableEq α] (x : α) :
    ∀ l : List α, x ∈ dedupConsec l ↔ x ∈ l
  | [] => by simp [dedupConsec]
  | [a] => by simp [dedupConsec]
  | a :: b :: l => by
    by_cases h : a = b
    · subst h
      rw [dedupConsec, if_pos rfl, mem_dedupConsec x (a :: l)]
      simp only [List.mem_cons]
      tauto
    · rw [dedupConsec, if_neg h]
      simp only [List.mem_cons, mem_dedupConsec x (b :: l)]

/-- `dedupConsec` keeps the head of a non-empty list. -/
theorem headDedupConsec {α : Type} [DecidableEq α] (b : α) :
    ∀ l : List α, ∃ t, dedupConsec (b :: l) = b :: t
  | [] => ⟨[], rfl⟩
  | c :: l => by
    by_cases h : b = c
    · obtain ⟨t, ht⟩ := headDedupConsec c l
      exact ⟨t, by rw [dedupConsec, if_pos h, ht, h]⟩
    · exact ⟨dedupConsec (c :: l), by rw [dedupConsec, if_neg h]⟩

/-- After `dedupConsec`, no two adjacent elements are equal. -/
theorem chain'_ne_dedupConsec {α : Type} [DecidableEq α] :
    ∀ l : List α, List.Chain' (fun x y => x ≠ y) (dedupConsec l)
  | [] => by simp [dedupConsec]
  | [a] => by simp [dedupConsec]
  | a :: b :: l => by
    by_cases h : a = b
    · rw [dedupConsec, if_pos h]
      exact chain'_ne_dedupConsec (b :: l)
    · obtain ⟨t, ht⟩ := headDedupConsec b l
      have ih := chain'_ne_dedupConsec (b :: l)
      rw [ht] at ih
      rw [dedupConsec, if_neg h, ht]
      exact List.Chain'.cons h ih

/-- `dedupConsec` never lengthens a list. -/
theorem length_dedupConsec_le {α : Type} [DecidableEq α] :
    ∀ l : List α, (dedupConsec l).length ≤ l.length
  | [] => Nat.le_refl _
  | [a] => Nat.le_refl _
  | a :: b :: l => by
    by_cases h : a = b
    · rw [dedupConsec, if_pos h]
      exact Nat.le_trans (length_dedupConsec_le (b :: l)) (by simp)
    · rw [dedupConsec, if_neg h, List.length_cons, List.length_cons]
      exact Nat.succ_le_succ (length_dedupConsec_le (b :: l))

/-- A predicate true on all of `l` lets the whole list through `takeWhile`. -/
theorem takeWhile_of_all {α : Type} (p : α → Bool) :
    ∀ l : List α, (∀ x ∈ l, p x = true) → l.takeWhile p = l
  | [], _ => rfl
  | a :: l, h => by
    rw [List.takeWhile_cons, h a (List.mem_cons_self a l)]
    simp [takeWhile_of_all p l (fun x hx => h x (List.mem_cons_of_mem a hx))]

/-- The visited prefix never exceeds the snapshot. -/
theorem visitedCount_le (flag : FlagSchedule) (n : Nat) : visitedCount flag n ≤ n := by
  have h := (List.takeWhile_prefix (l := List.range n) (fun i => ! flag (i + 1))).length_le
  simpa [visitedCount] using h

/-- A rank compares equal to itself. -/
theorem rankCmp_self : ∀ l : List Int, rankCmp l l = Ordering.eq
  | [] => rfl
  | a :: l => by
    rw [rankCmp]
    simp [intCmp, rankCmp_self l]

/-- The range-normalisation branch inside `merge_matched_items` computes
exactly `range_char_indices`. -/
theorem merge_branch_eq (r : MatchResult) (text : List Char) :
    (match r.matched_range with
      | .ByteRange .. => r.range_char_indices text
      | .Chars indices => indices) = r.range_char_indices text := by
  rcases r with ⟨rank, mr⟩
  cases mr <;> simp [MatchResult.range_char_indices]

/-- C1: with `lines_to_reserve = 2`, after `append [a,b,c]` then `append [d]`
the claim expects reserved `[a,b]`, `take() = [c,d]` and `length = 4`; the
code instead stores only the reserved slice of the first batch (dropping
`c`), so the pool is `[a,b,d]`, `append` returns 3, `length() = 3`, the
first `take()` view is `[a,b,d]`, and a second `take()` is empty.  This
theorem evaluates the embedded code at that failing input. -/
theorem item_pool_append_reserved_c1 :
    (((ItemPool.new.setLinesToReserve 2).append [itemA, itemB, itemC]).1.append [itemD]).1.reserved
        = [itemA, itemB] ∧
    (((ItemPool.new.setLinesToReserve 2).append [itemA, itemB, itemC]).1.append [itemD]).2 = 3 ∧
    (((ItemPool.new.setLinesToReserve 2).append [itemA, itemB, itemC]).1.append [itemD]).1.len
        = 3 ∧
    (((ItemPool.new.setLinesToReserve 2).append [itemA, itemB, itemC]).1.append [itemD]).1.take.2
        = [itemA, itemB, itemD] ∧
    (((ItemPool.new.setLinesToReserve 2).append [itemA, itemB, itemC]).1.append
        [itemD]).1.take.1.take.2 = [] :=
  ⟨rfl, rfl, rfl, rfl, rfl⟩

/-- C2: the claim expects a `disabled` run to turn every visited item into a
zero-rank `MatchedItem` without invoking the engine; in the code the engine
runs in the `filter_map` stage before the `disabled` test in the `map`
stage, so items the engine rejects are dropped even when disabled.  Over
the 3-item snapshot `[a, b, a]` with an engine matching only `a`, the
disabled pass publishes just 2 `MatchedItem`s (with `processed = 3`,
`matched = 0`), not 3.  This theorem evaluates the embedded pass there. -/
theorem matcher_disabled_engine_c2 :
    Matcher.run engineOnlyA true "q" 0 [itemA, itemB, itemA] [] flagNever =
      { buffer := [{ item := itemA, rank := UNMATCHED_RANK, matched_range := none, item_idx := 0 },
                   { item := itemA, rank := UNMATCHED_RANK, matched_range := none, item_idx := 2 }],
        processed := 3, matched := 0 } ∧
    (Matcher.run engineOnlyA true "q" 0 [itemA, itemB, itemA] [] flagNever).buffer.length = 2 :=
  ⟨rfl, rfl⟩

/-- C5 counterexample: on input `[NegScore, Begin, NegScore, Score]` the
normalised criteria list keeps both `Score` and `NegScore` and a duplicate
`NegScore` (Rust `Vec::dedup` removes only consecutive repeats), refuting
"contains exactly one of Score/NegScore, with duplicates removed". -/
theorem rank_builder_c5_counterexample :
    RankBuilder.new [.NegScore, .Begin, .NegScore, .Score]
        = [.NegScore, .Begin, .NegScore, .Score] ∧
    RankCriteria.Score ∈ RankBuilder.new [.NegScore, .Begin, .NegScore, .Score] ∧
    RankCriteria.NegScore ∈ RankBuilder.new [.NegScore, .Begin, .NegScore, .Score] ∧
    ¬ (RankBuilder.new [.NegScore, .Begin, .NegScore, .Score]).Nodup := by
  refine ⟨rfl, ?_, ?_, ?_⟩ <;> decide

/-- C5 (amended): `RankBuilder::new` yields a criteria list that contains at
least one of Score or NegScore, in which no two adjacent entries are equal
(only consecutive duplicates are removed), of length at most the original
length plus 1; and when Score or NegScore is already present nothing is
prepended, so the length is at most the original length. -/
theorem rank_builder_normalises_c5 (criterion : List RankCriteria) :
    (RankCriteria.Score ∈ RankBuilder.new criterion ∨
      RankCriteria.NegScore ∈ RankBuilder.new criterion) ∧
    List.Chain' (fun a b => a ≠ b) (RankBuilder.new criterion) ∧
    (RankBuilder.new criterion).length ≤ criterion.length + 1 ∧
    ((RankCriteria.Score ∈ criterion ∨ RankCriteria.NegScore ∈ criterion) →
      (RankBuilder.new criterion).length ≤ criterion.length) := by
  have hnew : RankBuilder.new criterion = dedupConsec
      (if ¬ RankCriteria.Score ∈ criterion ∧ ¬ RankCriteria.NegScore ∈ criterion then
        RankCriteria.Score :: criterion else criterion) := rfl
  rw [hnew]
  by_cases hc : ¬ RankCriteria.Score ∈ criterion ∧ ¬ RankCriteria.NegScore ∈ criterion
  · rw [if_pos hc]
    refine ⟨Or.inl ((mem_dedupConsec _ _).mpr (List.mem_cons_self _ _)),
      chain'_ne_dedupConsec _, ?_, ?_⟩
    · exact Nat.le_trans (length_dedupConsec_le _) (by simp)
    · intro h
      rcases hc with ⟨hs, hn⟩
      rcases h with h | h
      exacts [absurd h hs, absurd h hn]
  · rw [if_neg hc]
    have hor : RankCriteria.Score ∈ criterion ∨ RankCriteria.NegScore ∈ criterion := by
      tauto
    refine ⟨?_, chain'_ne_dedupConsec _, ?_, fun _ => length_dedupConsec_le _⟩
    · rcases hor with h | h
      · exact Or.inl ((mem_dedupConsec _ _).mpr h)
      · exact Or.inr ((mem_dedupConsec _ _).mpr h)
    · exact Nat.le_trans (length_dedupConsec_le _) (Nat.le_succ _)

/-- C5 witness: applying the amended theorem at `[Score]`, where nothing is
prepended and the result has length at most 1. -/
theorem rank_builder_normalises_c5_witness :
    (RankBuilder.new [RankCriteria.Score]).length ≤ 1 ∧
    (RankCriteria.Score ∈ RankBuilder.new [RankCriteria.Score] ∨
      RankCriteria.NegScore ∈ RankBuilder.new [RankCriteria.Score]) :=
  ⟨(rank_builder_normalises_c5 [RankCriteria.Score]).2.2.2 (Or.inl (by decide)),
   (rank_builder_normalises_c5 [RankCriteria.Score]).1⟩

/-- C6: `Or(E1,E2).match_item(I)` equals `E1.match_item(I)` when that is
`Some` — whatever `E2` is — and otherwise equals `E2.match_item(I)`; it is
`None` when no sub-engine matches. -/
theorem or_engine_first_match_c6 (e1 e2 : MatchEngine) (item : Item) :
    (∀ r, e1 item = some r → OrEngine.match_item [e1, e2] item = some r) ∧
    (e1 item = none → OrEngine.match_item [e1, e2] item = e2 item) ∧
    (e1 item = none → e2 item = none → OrEngine.match_item [e1, e2] item = none) := by
  refine ⟨fun r h => ?_, fun h => ?_, fun h h2 => ?_⟩
  · simp [OrEngine.match_item, List.findSome?_cons, h]
  · cases he : e2 item <;> simp [OrEngine.match_item, List.findSome?_cons, h, he]
  · simp [OrEngine.match_item, List.findSome?_cons, h, h2]

/-- C6 witness: the Or combinator at concrete engines: first hit wins,
fall-through on a first miss, `None` when both miss. -/
theorem or_engine_first_match_c6_witness :
    OrEngine.match_item [engineOnlyA, engineByte] itemA
        = some { rank := [-1, 0, 0, 0], matched_range := .Chars [0] } ∧
    OrEngine.match_item [engineNone, engineByte] itemA = engineByte itemA ∧
    OrEngine.match_item [engineNone, engineNone] itemA = none :=
  ⟨(or_engine_first_match_c6 engineOnlyA engineByte itemA).1 _ rfl,
   (or_engine_first_match_c6 engineNone engineByte itemA).2.1 rfl,
   (or_engine_first_match_c6 engineNone engineNone itemA).2.2 rfl rfl⟩

/-- C7: `reset` only rewinds the `taken` watermark to 0, leaving the stored
data, the reserved header and the `length` counter unchanged, and the next
`take` after a `reset` delivers the whole pool from index 0. -/
theorem item_pool_reset_c7 (p : ItemPool) :
    p.reset.pool = p.pool ∧ p.reset.reserved_items = p.reserved_items ∧
    p.reset.length = p.length ∧ p.reset.lines_to_reserve = p.lines_to_reserve ∧
    p.reset.taken = 0 ∧ p.reset.take.2 = p.pool ∧ p.reset.take.1.taken = p.pool.length := by
  refine ⟨rfl, rfl, rfl, rfl, rfl, ?_, rfl⟩
  simp [ItemPool.reset, ItemPool.take]

/-- C9: an `AndEngine` with no sub-engines matches nothing: the collected
result list is empty and `match_item` returns `None` for every item. -/
theorem and_engine_empty_c9 (item : Item) : AndEngine.match_item [] item = none := rfl

/-- C10: `MatchedItem` equality and ordering are determined by the `rank`
field alone, so two `MatchedItem`s with equal ranks compare equal whatever
their items, ranges or indices are. -/
theorem matched_item_rank_only_c10 (a b : MatchedItem) :
    (MatchedItem.eq a b = true ↔ a.rank = b.rank) ∧
    MatchedItem.cmp a b = rankCmp a.rank b.rank ∧
    (a.rank = b.rank → MatchedItem.eq a b = true ∧ MatchedItem.cmp a b = Ordering.eq) := by
  refine ⟨?_, rfl, fun h => ⟨?_, ?_⟩⟩
  · simp [MatchedItem.eq]
  · simp [MatchedItem.eq, h]
  · rw [MatchedItem.cmp, h]
    exact rankCmp_self _

/-- C10 witness: two `MatchedItem`s with different items, ranges and indices
but equal ranks compare equal. -/
theorem matched_item_rank_only_c10_witness :
    MatchedItem.eq
        { item := itemA, rank := [1, 2, 3, 4], matched_range := none, item_idx := 0 }
        { item := itemB, rank := [1, 2, 3, 4], matched_range := some (.Chars [0]), item_idx := 5 }
      = true ∧
    MatchedItem.cmp
        { item := itemA, rank := [1, 2, 3, 4], matched_range := none, item_idx := 0 }
        { item := itemB, rank := [1, 2, 3, 4], matched_range := some (.Chars [0]), item_idx := 5 }
      = Ordering.eq :=
  (matched_item_rank_only_c10 _ _).2.2 rfl

/-- C3: `And(E1,E2).match_item(I)` is `None` as soon as either sub-engine
fails (when `E1` fails, `E2` is irrelevant); on double success the rank is
`E1`'s rank and the matched range is the character-index-set form of the
sorted, deduplicated union of both sub-results' character indices, byte
ranges first converted against the item's text. -/
theorem and_engine_merge_c3 (e1 e2 : MatchEngine) (item : Item) :
    (e1 item = none → AndEngine.match_item [e1, e2] item = none) ∧
    (e2 item = none → AndEngine.match_item [e1, e2] item = none) ∧
    (∀ r1 r2, e1 item = some r1 → e2 item = some r2 →
      AndEngine.match_item [e1, e2] item = some
        { rank := r1.rank,
          matched_range := .Chars (dedupConsec (sortNat
            (r1.range_char_indices item.text ++ r2.range_char_indices item.text))) }) := by
  refine ⟨fun h => ?_, fun h => ?_, fun r1 r2 h1 h2 => ?_⟩
  · simp [AndEngine.match_item, collectResults, h]
  · cases h1 : e1 item <;> simp [AndEngine.match_item, collectResults, h, h1]
  · simp [AndEngine.match_item, collectResults, h1, h2, mergeMatchedItems, merge_branch_eq]

/-- C3 witness: merging a byte-range result with a character-index result
on a concrete item: rank of the first engine, union `[0] ∪ [1,0]` sorted
and deduplicated to `[0, 1]`. -/
theorem and_engine_merge_c3_witness :
    AndEngine.match_item [engineByte, engineChars] itemXY
        = some { rank := [-2, 0, 0, 0], matched_range := .Chars [0, 1] } := by
  exact (and_engine_merge_c3 engineByte engineChars itemXY).2.2
    { rank := [-2, 0, 0, 0], matched_range := .ByteRange 0 1 }
    { rank := [-3, 0, 0, 0], matched_range := .Chars [1, 0] } rfl rfl

/-- C4 counterexample: a cancellation landing after the publish gate has
been passed but before the first per-item check (`flagAfterGate`) leaves a
pass that visits no item (`processed = 0`) yet publishes an empty buffer
in place of the non-empty `previous_results` seed — the buffer was cleared
and only then found the snapshot cancelled, refuting "kill() before any
item is visited leaves the published buffer equal to the seed". -/
theorem matcher_cancel_c4_counterexample :
    (Matcher.run engineOnlyA false "q" 0 [itemA] seedResults flagAfterGate).processed = 0 ∧
    (Matcher.run engineOnlyA false "q" 0 [itemA] seedResults flagAfterGate).buffer = [] ∧
    seedResults ≠ [] := by
  refine ⟨rfl, rfl, by decide⟩

/-- C4 (amended): if the cancellation flag is already set at the publish
gate (the single pre-publish check), the buffer keeps the
`previous_results` seed and no item is processed; if the flag is never set
the buffer is replaced wholesale by the results of the full snapshot; and
whenever the gate passes, the published buffer is the result set of some
prefix of the snapshot — a cancellation arriving after the gate truncates
(possibly empties) the published set instead of preserving the seed. -/
theorem matcher_publish_gate_c4 (engine : MatchEngine) (disabled : Bool) (query : String)
    (numTaken : Nat) (items : List Item) (previousResults : List MatchedItem)
    (flag : FlagSchedule) :
    (flag 0 = true → Matcher.run engine disabled query numTaken items previousResults flag
        = { buffer := previousResults, processed := 0, matched := 0 }) ∧
    ((∀ t, flag t = false) →
      (Matcher.run engine disabled query numTaken items previousResults flag).buffer
          = passResults engine (disabled || query.isEmpty) numTaken items ∧
      (Matcher.run engine disabled query numTaken items previousResults flag).processed
          = items.length) ∧
    (flag 0 = false → ∃ k, k ≤ items.length ∧
      (Matcher.run engine disabled query numTaken items previousResults flag).buffer
          = passResults engine (disabled || query.isEmpty) numTaken (items.take k)) := by
  refine ⟨fun h => ?_, fun h => ?_, fun h => ?_⟩
  · simp [Matcher.run, h]
  · have hk : visitedCount flag items.length = items.length := by
      unfold visitedCount
      rw [takeWhile_of_all _ _ (fun x _ => by simp [h (x + 1)])]
      exact List.length_range _
    simp [Matcher.run, h 0, hk]
  · exact ⟨visitedCount flag items.length, visitedCount_le flag items.length,
      by simp [Matcher.run, h]⟩

/-- C4 witness: an uncancelled pass over one item publishes the full result
set and processes the whole snapshot; a pass whose flag is set from the
start keeps the seed untouched. -/
theorem matcher_publish_gate_c4_witness :
    (Matcher.run engineOnlyA false "q" 0 [itemA] [] flagNever).buffer
        = passResults engineOnlyA (false || "q".isEmpty) 0 [itemA] ∧
    (Matcher.run engineOnlyA false "q" 0 [itemA] [] flagNever).processed = 1 ∧
    Matcher.run engineOnlyA false "q" 0 [itemA] seedResults (fun _ => true)
        = { buffer := seedResults, processed := 0, matched := 0 } :=
  ⟨((matcher_publish_gate_c4 engineOnlyA false "q" 0 [itemA] [] flagNever).2.1
      (fun _ => rfl)).1,
   ((matcher_publish_gate_c4 engineOnlyA false "q" 0 [itemA] [] flagNever).2.1
      (fun _ => rfl)).2,
   (matcher_publish_gate_c4 engineOnlyA false "q" 0 [itemA] seedResults (fun _ => true)).1 rfl⟩

/-- Inductive invariant of the pool: the watermark never exceeds the length
counter, and the length counter equals the stored vector's length. -/
theorem item_pool_inv (p : ItemPool) (h : ItemPool.Reachable p) :
    p.taken ≤ p.length ∧ p.length = p.pool.length := by
  induction h with
  | new => exact ⟨Nat.le_refl 0, rfl⟩
  | set q n hq ih => exact ih
  | append q items hq ih =>
    rcases ih with ⟨h1, h2⟩
    simp only [ItemPool.append]
    split
    · exact ⟨Nat.le_trans (le_of_le_of_eq h1 h2)
        (le_of_le_of_eq (Nat.le_add_right _ _) (List.length_append _ _).symm), rfl⟩
    · exact ⟨Nat.le_trans (le_of_le_of_eq h1 h2)
        (le_of_le_of_eq (Nat.le_add_right _ _) (List.length_append _ _).symm), rfl⟩
  | take q hq ih => exact ⟨Nat.le_of_eq ih.2.symm, ih.2⟩
  | reset q hq ih => exact ⟨Nat.zero_le _, ih.2⟩
  | clear q hq ih => exact ⟨Nat.le_refl 0, rfl⟩

/-- C8: `taken ≤ length` holds in every pool state reachable from a fresh
pool through `new`, `lines_to_reserve`, `append`, `take`, `reset`, `clear`. -/
theorem item_pool_taken_le_length_c8 (p : ItemPool) (h : ItemPool.Reachable p) :
    p.taken ≤ p.length :=
  (item_pool_inv p h).1

/-- C8 witness: the invariant at the freshly created pool. -/
theorem item_pool_taken_le_length_c8_witness : ItemPool.new.taken ≤ ItemPool.new.length :=
  item_pool_taken_le_length_c8 ItemPool.new ItemPool.Reachable.new
